import Mathlib

/-!
Shallow embedding of the `supplier_kit` Rust crate.

The crate aggregates results from multiple named data providers
("suppliers"): a polymorphic `Supplier` interface, a name-keyed
`SupplierRegistry`, and a `BasicSupplierGroup` that queries every member
and partitions outcomes into successes and failures.

Modelling choices:
- `serde_json::Value` is embedded as the inductive `Json` (numbers are
  carried opaquely as `Int`; no theorem here inspects numeric values, the
  payloads only pass through the library untouched).
- A trait object `Arc<dyn Supplier>` is embedded as a record holding the
  `name` string and the `query` function.  `Arc` cloning is identity in a
  pure setting.
- `HashMap<String, Arc<dyn Supplier>>` is embedded as an association list
  with last-write-wins insertion (`register` conses the new binding and
  drops any previous binding for the same key), matching the key-set and
  lookup semantics of the hash map; the hash map has no meaningful order.
- Rust methods taking `&self` cannot mutate the receiver; where a claim is
  about that frame condition the call is embedded as returning the result
  together with the receiver value after the call.
-/

namespace SupplierKit

/-- Embedding of `serde_json::Value`: an arbitrary JSON document. -/
inductive Json where
  | null
  | bool (b : Bool)
  | num (n : Int)
  | str (s : String)
  | arr (elems : List Json)
  | obj (fields : List (String × Json))

/-- Embedding of `SupplierOperation` from `src/models.rs`. -/
inductive SupplierOperation where
  | Search
  | GetDetail
  | Other (s : String)
deriving DecidableEq

/-- Embedding of `SupplierError` from `src/errors.rs`. -/
inductive SupplierError where
  | Timeout
  | Unauthorized
  | NotFound
  | Internal (detail : String)
  | Upstream (detail : String)
  | InvalidInput (detail : String)
  | UnsupportedOperation (detail : String)

/-- Embedding of `SupplierRequest` from `src/models.rs`. -/
structure SupplierRequest where
  operation : SupplierOperation
  params : Json

/-- Embedding of `SupplierResponse` from `src/models.rs`. -/
structure SupplierResponse where
  data : Json

/-- Embedding of a `dyn Supplier` trait object (`src/supplier.rs`): a name
and a query function, the two members of the `Supplier` trait. -/
structure Supplier where
  name : String
  query : SupplierRequest → Except SupplierError SupplierResponse

/-- Embedding of `SupplierGroupResult` from `src/supplier_group.rs`. -/
structure SupplierGroupResult where
  successes : List (String × SupplierResponse)
  failures : List (String × SupplierError)

/-- Embedding of `BasicSupplierGroup` from `src/supplier_group.rs`. -/
structure BasicSupplierGroup where
  name : String
  suppliers : List Supplier

/-- `BasicSupplierGroup::new`. -/
def BasicSupplierGroup.new (name : String) : BasicSupplierGroup :=
  { name := name, suppliers := [] }

/-- `BasicSupplierGroup::group_name`. -/
def BasicSupplierGroup.group_name (g : BasicSupplierGroup) : String :=
  g.name

/-- `BasicSupplierGroup::add_supplier` / `add_supplier_arc`: both push the
supplier handle onto the member vector. -/
def BasicSupplierGroup.add_supplier (g : BasicSupplierGroup) (s : Supplier) :
    BasicSupplierGroup :=
  { g with suppliers := g.suppliers ++ [s] }

/-- The loop body of `BasicSupplierGroup::query`: walk the member list in
order, pushing `(name, response)` on success and `(name, error)` on
failure.  The recursion produces exactly the two vectors the Rust loop
builds with `push`. -/
def queryMembers (request : SupplierRequest) :
    List Supplier → List (String × SupplierResponse) × List (String × SupplierError)
  | [] => ([], [])
  | s :: rest =>
    let tail := queryMembers request rest
    match s.query request with
    | .ok response => ((s.name, response) :: tail.1, tail.2)
    | .error e => (tail.1, (s.name, e) :: tail.2)

/-- `BasicSupplierGroup::query` (the `SupplierGroup` impl in
`src/supplier_group.rs`): each member receives its own copy of the request
(request cloning is identity in the pure embedding). -/
def BasicSupplierGroup.query (g : BasicSupplierGroup) (request : SupplierRequest) :
    SupplierGroupResult :=
  { successes := (queryMembers request g.suppliers).1
    failures := (queryMembers request g.suppliers).2 }

/-- Embedding of the `query` method call through the `&self` receiver: the
call yields the result together with the receiver after the call, which is
the unchanged group value. -/
def BasicSupplierGroup.queryCall (g : BasicSupplierGroup) (request : SupplierRequest) :
    SupplierGroupResult × BasicSupplierGroup :=
  (g.query request, g)

/-- Embedding of `SupplierRegistry` (`src/supplier.rs`): the hash map is
modelled as an association list whose key set and lookup behaviour match
the map. -/
structure SupplierRegistry where
  suppliers : List (String × Supplier)

/-- `SupplierRegistry::new`. -/
def SupplierRegistry.new : SupplierRegistry :=
  { suppliers := [] }

/-- `SupplierRegistry::register`: `HashMap::insert`, i.e. last-write-wins
replacement of any previous binding for the key. -/
def SupplierRegistry.register (reg : SupplierRegistry) (name : String)
    (s : Supplier) : SupplierRegistry :=
  { suppliers := (name, s) :: reg.suppliers.filter (fun p => p.1 != name) }

/-- `SupplierRegistry::get`: `HashMap::get` plus `cloned` on the `Arc`. -/
def SupplierRegistry.get (reg : SupplierRegistry) (name : String) : Option Supplier :=
  (reg.suppliers.find? (fun p => p.1 == name)).map Prod.snd

/-- `add_suppliers_from_registry` from `src/utils.rs`: look each name up,
append found suppliers to the group, collect `(name, NotFound)` for the
missing ones.  Returns the group after the call together with the failure
list (the Rust function mutates the group through `&mut`). -/
def add_suppliers_from_registry (g : BasicSupplierGroup) (reg : SupplierRegistry) :
    List String → BasicSupplierGroup × List (String × SupplierError)
  | [] => (g, [])
  | n :: rest =>
    match reg.get n with
    | some s => add_suppliers_from_registry (g.add_supplier s) reg rest
    | none =>
      let tail := add_suppliers_from_registry g reg rest
      (tail.1, (n, SupplierError.NotFound) :: tail.2)

/-- `add_supplier_from_registry` from `src/utils.rs` (single-name variant). -/
def add_supplier_from_registry (g : BasicSupplierGroup) (reg : SupplierRegistry)
    (name : String) : Except SupplierError BasicSupplierGroup :=
  match reg.get name with
  | some s => .ok (g.add_supplier s)
  | none => .error SupplierError.NotFound

/- ### Helper lemmas about the group query -/

theorem queryMembers_fst (request : SupplierRequest) (l : List Supplier) :
    (queryMembers request l).1 =
      l.filterMap fun s =>
        match s.query request with
        | .ok r => some (s.name, r)
        | .error _ => none := by
  induction l with
  | nil => rfl
  | cons s rest ih =>
    simp only [queryMembers, List.filterMap_cons]
    cases h : s.query request <;> simp [h, ih]

theorem queryMembers_snd (request : SupplierRequest) (l : List Supplier) :
    (queryMembers request l).2 =
      l.filterMap fun s =>
        match s.query request with
        | .ok _ => none
        | .error e => some (s.name, e) := by
  induction l with
  | nil => rfl
  | cons s rest ih =>
    simp only [queryMembers, List.filterMap_cons]
    cases h : s.query request <;> simp [h, ih]

theorem queryMembers_ok_names (request : SupplierRequest) (l : List Supplier) :
    (queryMembers request l).1.map Prod.fst =
      ((l.filter fun s => (s.query request).isOk).map Supplier.name) := by
  rw [queryMembers_fst]
  induction l with
  | nil => rfl
  | cons s rest ih =>
    simp only [List.filterMap_cons, List.filter_cons]
    cases h : s.query request <;> simp [h, ih, Except.isOk, Except.toBool]

theorem queryMembers_err_names (request : SupplierRequest) (l : List Supplier) :
    (queryMembers request l).2.map Prod.fst =
      ((l.filter fun s => !(s.query request).isOk).map Supplier.name) := by
  rw [queryMembers_snd]
  induction l with
  | nil => rfl
  | cons s rest ih =>
    simp only [List.filterMap_cons, List.filter_cons]
    cases h : s.query request <;> simp [h, ih, Except.isOk, Except.toBool]

theorem queryMembers_length (request : SupplierRequest) (l : List Supplier) :
    (queryMembers request l).1.length + (queryMembers request l).2.length = l.length := by
  induction l with
  | nil => rfl
  | cons s rest ih =>
    simp only [queryMembers]
    cases h : s.query request <;> simp [h] <;> omega

/-- A mock supplier in the style of the crate's tests and doc examples: it
fails with `Internal` when the flag is set and otherwise answers with a
fixed payload naming the supplier. -/
def mockSupplier (name : String) (should_fail : Bool) : Supplier :=
  { name := name
    query := fun _ =>
      if should_fail then
        .error (SupplierError.Internal (name ++ " failed"))
      else
        .ok { data := Json.obj [("supplier", Json.str name)] } }

/-- A sample request used to instantiate universally quantified theorems. -/
def sampleRequest : SupplierRequest :=
  { operation := SupplierOperation.Search
    params := Json.obj [("query", Json.str "item")] }

/-- A sample group whose three members a, b, c all succeed. -/
def sampleGroupABC : BasicSupplierGroup :=
  (((BasicSupplierGroup.new "group1").add_supplier (mockSupplier "a" false)).add_supplier
      (mockSupplier "b" false)).add_supplier (mockSupplier "c" false)

/- ### Claim theorems about the group query -/

/-- C1.  Partition completeness: for every group with N members and every
request, `BasicSupplierGroup::query` returns a result with
`len(successes) + len(failures) = N`. -/
theorem query_partition_complete (g : BasicSupplierGroup) (request : SupplierRequest) :
    (g.query request).successes.length + (g.query request).failures.length =
      g.suppliers.length := by
  simpa [BasicSupplierGroup.query] using queryMembers_length request g.suppliers

/-- C2.  No short-circuit: every member is queried regardless of prior
outcomes; the successes are exactly the `(name, response)` pairs of the
members whose query succeeded and the failures exactly the `(name, error)`
pairs of the members whose query failed, for any interleaving — in
particular the recorded names are exactly the names of the members with
the corresponding outcome, in member order. -/
theorem query_no_short_circuit (g : BasicSupplierGroup) (request : SupplierRequest) :
    (g.query request).successes =
        (g.suppliers.filterMap fun s =>
          match s.query request with
          | .ok r => some (s.name, r)
          | .error _ => none) ∧
      (g.query request).failures =
        (g.suppliers.filterMap fun s =>
          match s.query request with
          | .ok _ => none
          | .error e => some (s.name, e)) ∧
      (g.query request).successes.map Prod.fst =
        ((g.suppliers.filter fun s => (s.query request).isOk).map Supplier.name) ∧
      (g.query request).failures.map Prod.fst =
        ((g.suppliers.filter fun s => !(s.query request).isOk).map Supplier.name) := by
  refine ⟨?_, ?_, ?_, ?_⟩
  · simpa [BasicSupplierGroup.query] using queryMembers_fst request g.suppliers
  · simpa [BasicSupplierGroup.query] using queryMembers_snd request g.suppliers
  · simpa [BasicSupplierGroup.query] using queryMembers_ok_names request g.suppliers
  · simpa [BasicSupplierGroup.query] using queryMembers_err_names request g.suppliers

/-- C3.  Order preservation within outcome: the names in successes and the
names in failures each appear in the same relative order as the
corresponding members of the group, and when every member succeeds the
successes carry the member names in exactly the order the members were
added. -/
theorem query_order_preserved (g : BasicSupplierGroup) (request : SupplierRequest) :
    ((g.query request).successes.map Prod.fst).Sublist (g.suppliers.map Supplier.name) ∧
      ((g.query request).failures.map Prod.fst).Sublist (g.suppliers.map Supplier.name) ∧
      ((∀ s ∈ g.suppliers, (s.query request).isOk = true) →
        (g.query request).successes.map Prod.fst = g.suppliers.map Supplier.name) := by
  have hs : (g.query request).successes.map Prod.fst =
      ((g.suppliers.filter fun s => (s.query request).isOk).map Supplier.name) := by
    simpa [BasicSupplierGroup.query] using queryMembers_ok_names request g.suppliers
  have hf : (g.query request).failures.map Prod.fst =
      ((g.suppliers.filter fun s => !(s.query request).isOk).map Supplier.name) := by
    simpa [BasicSupplierGroup.query] using queryMembers_err_names request g.suppliers
  refine ⟨?_, ?_, ?_⟩
  · rw [hs]
    exact (List.filter_sublist g.suppliers).map Supplier.name
  · rw [hf]
    exact (List.filter_sublist g.suppliers).map Supplier.name
  · intro hall
    rw [hs, List.filter_eq_self.mpr hall]

/-- C3 witness: a concrete group with members a, b, c added in that order,
all succeeding; the successes list the names a, b, c in order. -/
theorem query_order_preserved_witness :
    (∀ s ∈ sampleGroupABC.suppliers, (s.query sampleRequest).isOk = true) ∧
      (sampleGroupABC.query sampleRequest).successes.map Prod.fst = ["a", "b", "c"] := by
  refine ⟨by decide, ?_⟩
  have h := (query_order_preserved sampleGroupABC sampleRequest).2.2 (by decide)
  simpa using h

/-- C7.  Empty-group query: querying a group with zero members returns an
ordinary result with empty successes and empty failures, for every
request. -/
theorem query_empty_group (g : BasicSupplierGroup) (request : SupplierRequest)
    (h : g.suppliers = []) :
    (g.query request).successes = [] ∧ (g.query request).failures = [] := by
  simp [BasicSupplierGroup.query, h, queryMembers]

/-- C7 witness: a freshly created group has zero members and yields the
empty partition. -/
theorem query_empty_group_witness :
    (BasicSupplierGroup.new "group1").suppliers = [] ∧
      ((BasicSupplierGroup.new "group1").query sampleRequest).successes = [] ∧
      ((BasicSupplierGroup.new "group1").query sampleRequest).failures = [] :=
  ⟨rfl, query_empty_group (BasicSupplierGroup.new "group1") sampleRequest rfl⟩

/-- C9.  Frame property: `query` takes the group by shared reference; the
receiver after the call is the group value the call started from, so the
group's name and its member sequence are exactly what they were before the
call. -/
theorem query_frame (g : BasicSupplierGroup) (request : SupplierRequest) :
    (g.queryCall request).2.name = g.name ∧
      (g.queryCall request).2.suppliers = g.suppliers ∧
      (g.queryCall request).1 = g.query request :=
  ⟨rfl, rfl, rfl⟩

/-- C10.  The name recorded in a group result comes from the supplier's
own `name()` at query time, never from the registry key: for every key k
and supplier s — including k different from s.name, empty keys and empty
names, none of which any code path rejects — pulling s into a group via
the registry under key k and querying records exactly s.name. -/
theorem query_records_supplier_name (k : String) (s : Supplier)
    (request : SupplierRequest) :
    (add_suppliers_from_registry (BasicSupplierGroup.new "g")
        (SupplierRegistry.new.register k s) [k]).2 = [] ∧
      ((((add_suppliers_from_registry (BasicSupplierGroup.new "g")
            (SupplierRegistry.new.register k s) [k]).1.query request).successes.map
          Prod.fst) ++
        (((add_suppliers_from_registry (BasicSupplierGroup.new "g")
            (SupplierRegistry.new.register k s) [k]).1.query request).failures.map
          Prod.fst)) = [s.name] := by
  have hget : (SupplierRegistry.new.register k s).get k = some s := by
    simp [SupplierRegistry.get, SupplierRegistry.register, SupplierRegistry.new,
      List.find?]
  constructor
  · simp [add_suppliers_from_registry, hget]
  · simp only [add_suppliers_from_registry, hget]
    cases h : s.query request <;>
      simp [BasicSupplierGroup.query, BasicSupplierGroup.add_supplier,
        BasicSupplierGroup.new, queryMembers, h]

/- ### Helper lemmas about the registry -/

theorem filter_ne_eq_self_of_not_mem (n : String) (l : List (String × Supplier))
    (h : n ∉ l.map Prod.fst) : l.filter (fun p => p.1 != n) = l := by
  induction l with
  | nil => rfl
  | cons p rest ih =>
    simp only [List.map_cons, List.mem_cons] at h
    push_neg at h
    simp only [List.filter_cons]
    rw [if_pos (by simpa [bne_iff_ne] using (h.1).symm), ih h.2]

theorem filter_ne_length_of_mem (n : String) (l : List (String × Supplier))
    (hnd : (l.map Prod.fst).Nodup) (h : n ∈ l.map Prod.fst) :
    (l.filter (fun p => p.1 != n)).length + 1 = l.length := by
  induction l with
  | nil => simp at h
  | cons p rest ih =>
    simp only [List.map_cons, List.nodup_cons] at hnd
    simp only [List.map_cons, List.mem_cons] at h
    simp only [List.filter_cons]
    rcases h with h | h
    · rw [if_neg (by simp [bne_iff_ne, h.symm]),
        filter_ne_eq_self_of_not_mem n rest (h ▸ hnd.1)]
      simp
    · have hne : p.1 ≠ n := fun hc => hnd.1 (hc ▸ h)
      rw [if_pos (by simpa [bne_iff_ne] using hne)]
      simp only [List.length_cons]
      rw [← ih hnd.2 h]

theorem filter_ne_countP (n : String) (l : List (String × Supplier)) :
    (l.filter (fun p => p.1 != n)).countP (fun p => p.1 == n) = 0 := by
  induction l with
  | nil => rfl
  | cons p rest ih =>
    simp only [List.filter_cons]
    by_cases h : p.1 = n
    · rw [if_neg (by simp [bne_iff_ne, h])]
      exact ih
    · rw [if_pos (by simpa [bne_iff_ne] using h), List.countP_cons]
      simp [h, ih]

theorem filter_ne_keys_nodup (n : String) (l : List (String × Supplier))
    (hnd : (l.map Prod.fst).Nodup) :
    ((l.filter (fun p => p.1 != n)).map Prod.fst).Nodup := by
  have hsub : ((l.filter (fun p => p.1 != n)).map Prod.fst).Sublist (l.map Prod.fst) :=
    (List.filter_sublist l).map Prod.fst
  exact hnd.sublist hsub

/- ### Claim theorems about the registry and the bulk helper -/

/-- C5.  Registry replace semantics: on a registry whose keys are distinct
(as a hash map's always are), registering under a name leaves exactly one
entry with that key, keeps the key count unchanged when the name was
already registered and grows it by one otherwise, keeps the keys distinct,
and a subsequent `get` of that name returns the provider just
registered. -/
theorem register_replaces (reg : SupplierRegistry) (n : String) (s : Supplier)
    (hnd : (reg.suppliers.map Prod.fst).Nodup) :
    (reg.register n s).get n = some s ∧
      ((reg.register n s).suppliers.countP fun p => p.1 == n) = 1 ∧
      (((reg.register n s).suppliers.map Prod.fst).Nodup) ∧
      (reg.register n s).suppliers.length =
        (if n ∈ reg.suppliers.map Prod.fst then reg.suppliers.length
          else reg.suppliers.length + 1) := by
  refine ⟨?_, ?_, ?_, ?_⟩
  · simp [SupplierRegistry.get, SupplierRegistry.register, List.find?]
  · simp only [SupplierRegistry.register, List.countP_cons]
    simp [filter_ne_countP]
  · simp only [SupplierRegistry.register, List.map_cons, List.nodup_cons]
    refine ⟨?_, filter_ne_keys_nodup n reg.suppliers hnd⟩
    intro hmem
    obtain ⟨p, hp, hpn⟩ := List.mem_map.mp hmem
    have := List.of_mem_filter hp
    simp [bne_iff_ne, hpn] at this
  · simp only [SupplierRegistry.register, List.length_cons]
    by_cases h : n ∈ reg.suppliers.map Prod.fst
    · rw [if_pos h]
      have := filter_ne_length_of_mem n reg.suppliers hnd h
      omega
    · rw [if_neg h, filter_ne_eq_self_of_not_mem n reg.suppliers h]

/-- C5 witness: registering s1 then a replacement under the same key on a
fresh registry; the registry keeps one entry for the key, the key count
stays at one, and `get` returns the second provider.  The hypothesis is
discharged on the concrete one-entry registry. -/
theorem register_replaces_witness :
    ((((SupplierRegistry.new.register "s1" (mockSupplier "s1" false)).suppliers.map
        Prod.fst).Nodup) ∧
      ((SupplierRegistry.new.register "s1" (mockSupplier "s1" false)).register "s1"
            (mockSupplier "other" true)).get "s1" = some (mockSupplier "other" true) ∧
      (((SupplierRegistry.new.register "s1" (mockSupplier "s1" false)).register "s1"
            (mockSupplier "other" true)).suppliers.countP fun p => p.1 == "s1") = 1 ∧
      ((SupplierRegistry.new.register "s1" (mockSupplier "s1" false)).register "s1"
            (mockSupplier "other" true)).suppliers.length =
        (SupplierRegistry.new.register "s1" (mockSupplier "s1" false)).suppliers.length) := by
  have hnd : (((SupplierRegistry.new.register "s1"
      (mockSupplier "s1" false)).suppliers.map Prod.fst).Nodup) := by
    simp [SupplierRegistry.register, SupplierRegistry.new]
  have h := register_replaces (SupplierRegistry.new.register "s1" (mockSupplier "s1" false))
    "s1" (mockSupplier "other" true) hnd
  refine ⟨hnd, h.1, h.2.1, ?_⟩
  have hmem : "s1" ∈ ((SupplierRegistry.new.register "s1"
      (mockSupplier "s1" false)).suppliers.map Prod.fst) := by
    simp [SupplierRegistry.register, SupplierRegistry.new]
  simpa [hmem] using h.2.2.2

/-- C4.  Bulk lookup-helper: `add_suppliers_from_registry` appends to the
group exactly the suppliers registered under the requested names that the
registry holds, in requested-name order, and returns as failures exactly
the pairs `(name, NotFound)` for the requested names absent from the
registry, in requested order. -/
theorem add_suppliers_from_registry_spec (g : BasicSupplierGroup)
    (reg : SupplierRegistry) (names : List String) :
    (add_suppliers_from_registry g reg names).1.suppliers =
        g.suppliers ++ names.filterMap reg.get ∧
      (add_suppliers_from_registry g reg names).1.name = g.name ∧
      (add_suppliers_from_registry g reg names).2 =
        ((names.filter fun n => (reg.get n).isNone).map
          fun n => (n, SupplierError.NotFound)) := by
  induction names generalizing g with
  | nil => simp [add_suppliers_from_registry]
  | cons n rest ih =>
    simp only [add_suppliers_from_registry]
    cases h : reg.get n with
    | some s =>
      obtain ⟨h1, h2, h3⟩ := ih (g.add_supplier s)
      refine ⟨?_, h2, ?_⟩
      · rw [h1]
        simp [BasicSupplierGroup.add_supplier, List.filterMap_cons, h]
      · rw [h3, List.filter_cons]
        simp [h]
    | none =>
      obtain ⟨h1, h2, h3⟩ := ih g
      refine ⟨?_, h2, ?_⟩
      · rw [h1]
        simp [List.filterMap_cons, h]
      · rw [h3, List.filter_cons]
        simp [h]

/- ### Operation normalization (`SupplierOperation::normalize`) -/

/-- Rust `char::is_whitespace`: the Unicode White_Space code points, used
by `str::trim`. -/
def isRustWhitespace (c : Char) : Bool :=
  (9 ≤ c.toNat && c.toNat ≤ 13) || c.toNat == 32 || c.toNat == 133 ||
    c.toNat == 160 || c.toNat == 5760 || (8192 ≤ c.toNat && c.toNat ≤ 8202) ||
    c.toNat == 8232 || c.toNat == 8233 || c.toNat == 8239 || c.toNat == 8287 ||
    c.toNat == 12288

/-- Rust `char::to_ascii_lowercase`: add 32 to the code point of an ASCII
uppercase letter, leave everything else alone. -/
def toAsciiLowercase (c : Char) : Char :=
  if 65 ≤ c.toNat && c.toNat ≤ 90 then Char.ofNat (c.toNat + 32) else c

/-- Rust `str::replace([' ', '-', '/'], "_")` acts per character: space
(32), hyphen (45) and slash (47) become an underscore. -/
def replaceSeparator (c : Char) : Char :=
  if c.toNat == 32 || c.toNat == 45 || c.toNat == 47 then '_' else c

/-- Rust `str::trim_start`. -/
def trimStart (l : List Char) : List Char :=
  l.dropWhile isRustWhitespace

/-- Rust `str::trim`: drop Unicode whitespace from both ends. -/
def trimChars (l : List Char) : List Char :=
  ((trimStart l).reverse.dropWhile isRustWhitespace).reverse

/-- The character list computed by the body of
`SupplierOperation::normalize` for the `Other` case:
`s.trim().to_ascii_lowercase().replace([' ', '-', '/'], "_")`. -/
def normalizeChars (l : List Char) : List Char :=
  ((trimChars l).map toAsciiLowercase).map replaceSeparator

/-- String-level wrapper of `normalizeChars`. -/
def normalizeString (s : String) : String :=
  String.mk (normalizeChars s.data)

/-- `SupplierOperation::normalize` from `src/models.rs`. -/
def SupplierOperation.normalize : SupplierOperation → SupplierOperation
  | SupplierOperation.Other s => SupplierOperation.Other (normalizeString s)
  | op => op

/- ### Helper lemmas for idempotence of normalization -/

/-- The per-character transform applied after trimming. -/
def normChar (c : Char) : Char :=
  replaceSeparator (toAsciiLowercase c)

theorem toNat_ofNat_add32 (n : Nat) (h65 : 65 ≤ n) (h90 : n ≤ 90) :
    (Char.ofNat (n + 32)).toNat = n + 32 := by
  interval_cases n <;> decide

theorem ws_iff (c : Char) : isRustWhitespace c = true ↔
    (9 ≤ c.toNat ∧ c.toNat ≤ 13) ∨ c.toNat = 32 ∨ c.toNat = 133 ∨ c.toNat = 160 ∨
      c.toNat = 5760 ∨ (8192 ≤ c.toNat ∧ c.toNat ≤ 8202) ∨ c.toNat = 8232 ∨
      c.toNat = 8233 ∨ c.toNat = 8239 ∨ c.toNat = 8287 ∨ c.toNat = 12288 := by
  unfold isRustWhitespace
  simp only [Bool.or_eq_true, Bool.and_eq_true, decide_eq_true_eq, beq_iff_eq]
  tauto

theorem lower_upper (c : Char) (h65 : 65 ≤ c.toNat) (h90 : c.toNat ≤ 90) :
    toAsciiLowercase c = Char.ofNat (c.toNat + 32) := by
  unfold toAsciiLowercase
  rw [if_pos (by simp [h65, h90])]

theorem lower_other (c : Char) (h : ¬ (65 ≤ c.toNat ∧ c.toNat ≤ 90)) :
    toAsciiLowercase c = c := by
  unfold toAsciiLowercase
  rw [if_neg (by simpa using h)]

theorem repl_sep (c : Char) (h : c.toNat = 32 ∨ c.toNat = 45 ∨ c.toNat = 47) :
    replaceSeparator c = '_' := by
  unfold replaceSeparator
  rw [if_pos (by simp only [Bool.or_eq_true, beq_iff_eq]; tauto)]

theorem repl_other (c : Char) (h : ¬ (c.toNat = 32 ∨ c.toNat = 45 ∨ c.toNat = 47)) :
    replaceSeparator c = c := by
  unfold replaceSeparator
  rw [if_neg (by simp only [Bool.or_eq_true, beq_iff_eq]; tauto)]

theorem normChar_not_ws (c : Char) (h : isRustWhitespace c = false) :
    isRustWhitespace (normChar c) = false := by
  unfold normChar
  by_cases hup : 65 ≤ c.toNat ∧ c.toNat ≤ 90
  · rw [lower_upper c hup.1 hup.2]
    rw [repl_other _ (by rw [toNat_ofNat_add32 c.toNat hup.1 hup.2]; omega)]
    rw [← Bool.not_eq_true, ws_iff]
    rw [toNat_ofNat_add32 c.toNat hup.1 hup.2]
    omega
  · rw [lower_other c hup]
    by_cases hsep : c.toNat = 32 ∨ c.toNat = 45 ∨ c.toNat = 47
    · rw [repl_sep c hsep]
      decide
    · rw [repl_other c hsep]
      exact h

theorem normChar_idem (c : Char) : normChar (normChar c) = normChar c := by
  unfold normChar
  by_cases hup : 65 ≤ c.toNat ∧ c.toNat ≤ 90
  · have h1 : replaceSeparator (Char.ofNat (c.toNat + 32)) = Char.ofNat (c.toNat + 32) :=
      repl_other _ (by rw [toNat_ofNat_add32 c.toNat hup.1 hup.2]; omega)
    have h2 : toAsciiLowercase (Char.ofNat (c.toNat + 32)) = Char.ofNat (c.toNat + 32) :=
      lower_other _ (by rw [toNat_ofNat_add32 c.toNat hup.1 hup.2]; omega)
    rw [lower_upper c hup.1 hup.2, h1, h2, h1]
  · rw [lower_other c hup]
    by_cases hsep : c.toNat = 32 ∨ c.toNat = 45 ∨ c.toNat = 47
    · rw [repl_sep c hsep]
      rw [lower_other _ (by decide)]
      rw [repl_other _ (by decide)]
    · rw [repl_other c hsep, lower_other c hup, repl_other c hsep]

theorem head_dropWhile_not (p : Char → Bool) (l : List Char) :
    ∀ c ∈ (l.dropWhile p).head?, p c = false := by
  induction l with
  | nil => simp [List.dropWhile]
  | cons x xs ih =>
    rw [List.dropWhile_cons]
    by_cases h : p x = true
    · simpa [h] using ih
    · simp only [h, if_false]
      simp only [Bool.not_eq_true] at h
      simp [h]

theorem getLast_dropWhile_of_ne_nil (p : Char → Bool) (l : List Char)
    (h : l.dropWhile p ≠ []) : (l.dropWhile p).getLast? = l.getLast? := by
  induction l with
  | nil => simp [List.dropWhile] at h
  | cons x xs ih =>
    rw [List.dropWhile_cons]
    by_cases hp : p x = true
    · rw [List.dropWhile_cons, if_pos hp] at h
      rw [if_pos hp, ih h]
      have hxs : xs ≠ [] := by
        intro hc
        rw [hc] at h
        simp [List.dropWhile] at h
      cases xs with
      | nil => exact absurd rfl hxs
      | cons y ys => rw [List.getLast?_cons_cons]
    · simp [hp]

theorem dropWhile_eq_self_of_head (p : Char → Bool) (l : List Char)
    (h : ∀ c ∈ l.head?, p c = false) : l.dropWhile p = l := by
  cases l with
  | nil => rfl
  | cons x xs =>
    rw [List.dropWhile_cons, if_neg]
    simp only [List.head?_cons, Option.mem_def, Option.some.injEq] at h
    simp [h x rfl]

theorem trimChars_eq_self (l : List Char)
    (hhead : ∀ c ∈ l.head?, isRustWhitespace c = false)
    (hlast : ∀ c ∈ l.getLast?, isRustWhitespace c = false) :
    trimChars l = l := by
  unfold trimChars trimStart
  rw [dropWhile_eq_self_of_head _ l hhead]
  rw [dropWhile_eq_self_of_head _ l.reverse (by simpa [List.head?_reverse] using hlast)]
  exact List.reverse_reverse l

theorem trimChars_head_not_ws (l : List Char) :
    ∀ c ∈ (trimChars l).head?, isRustWhitespace c = false := by
  intro c hc
  unfold trimChars trimStart at hc
  rw [List.head?_reverse] at hc
  by_cases hnil : (l.dropWhile isRustWhitespace).reverse.dropWhile isRustWhitespace = []
  · rw [hnil] at hc
    simp at hc
  · rw [getLast_dropWhile_of_ne_nil _ _ hnil, List.getLast?_reverse] at hc
    exact head_dropWhile_not isRustWhitespace l c hc

theorem trimChars_last_not_ws (l : List Char) :
    ∀ c ∈ (trimChars l).getLast?, isRustWhitespace c = false := by
  intro c hc
  unfold trimChars trimStart at hc
  rw [List.getLast?_reverse] at hc
  exact head_dropWhile_not isRustWhitespace _ c hc

theorem normalizeChars_idem (l : List Char) :
    normalizeChars (normalizeChars l) = normalizeChars l := by
  have hrw : ∀ m : List Char, normalizeChars m = (trimChars m).map normChar := by
    intro m
    unfold normalizeChars normChar
    rw [List.map_map]
    rfl
  simp only [hrw]
  have htrim : trimChars ((trimChars l).map normChar) = (trimChars l).map normChar := by
    apply trimChars_eq_self
    · intro c hc
      rw [List.head?_map] at hc
      obtain ⟨d, hd, hdc⟩ := Option.map_eq_some'.mp (Option.mem_def.mp hc)
      have hd0 : d ∈ (trimChars l).head? := Option.mem_def.mpr hd
      exact hdc ▸ normChar_not_ws d (trimChars_head_not_ws l d hd0)
    · intro c hc
      rw [List.getLast?_map] at hc
      obtain ⟨d, hd, hdc⟩ := Option.map_eq_some'.mp (Option.mem_def.mp hc)
      have hd0 : d ∈ (trimChars l).getLast? := Option.mem_def.mpr hd
      exact hdc ▸ normChar_not_ws d (trimChars_last_not_ws l d hd0)
  rw [htrim, List.map_map]
  apply List.map_congr_left
  intro c _
  exact normChar_idem c

/- ### Claim theorem for normalization -/

/-- C6.  `SupplierOperation::normalize` is idempotent on every operation,
fixes `Search` and `GetDetail`, and sends `Other "Submit Transaction"` to
`Other "submit_transaction"` (trim, ASCII lowercase, spaces, hyphens and
slashes to underscores). -/
theorem normalize_idempotent :
    (∀ op : SupplierOperation, op.normalize.normalize = op.normalize) ∧
      SupplierOperation.Search.normalize = SupplierOperation.Search ∧
      SupplierOperation.GetDetail.normalize = SupplierOperation.GetDetail ∧
      (SupplierOperation.Other "Submit Transaction").normalize =
        SupplierOperation.Other "submit_transaction" := by
  refine ⟨?_, rfl, rfl, ?_⟩
  · intro op
    cases op with
    | Search => rfl
    | GetDetail => rfl
    | Other s =>
      simp only [SupplierOperation.normalize, SupplierOperation.Other.injEq]
      unfold normalizeString
      congr 1
      exact normalizeChars_idem s.data
  · simp only [SupplierOperation.normalize, SupplierOperation.Other.injEq]
    decide

/- ### Serialization of requests (documented wire shape) -/

/-- Modelled from the spec: the serialized form of `SupplierOperation`
under the derived serde codec with `rename_all = "snake_case"` — an
externally tagged union whose unit variants become the strings `"search"`
and `"get_detail"` and whose `Other` variant becomes a one-field map
tagged `"other"` carrying the inner string.  The derive expansion itself
is serde-generated code, not part of this repository. -/
def operationToJson : SupplierOperation → Json
  | SupplierOperation.Search => Json.str "search"
  | SupplierOperation.GetDetail => Json.str "get_detail"
  | SupplierOperation.Other s => Json.obj [("other", Json.str s)]

/-- Modelled from the spec: parsing a `SupplierOperation` back from the
documented wire shape. -/
def operationFromJson : Json → Option SupplierOperation
  | Json.str tag =>
    if tag = "search" then some SupplierOperation.Search
    else if tag = "get_detail" then some SupplierOperation.GetDetail
    else none
  | Json.obj [(tag, Json.str s)] =>
    if tag = "other" then some (SupplierOperation.Other s) else none
  | _ => none

/-- First value stored under a field name in a JSON object. -/
def lookupField (fields : List (String × Json)) (key : String) : Option Json :=
  (fields.find? (fun p => p.1 == key)).map Prod.snd

/-- Modelled from the spec: the serialized form of `SupplierRequest` — a
two-field object holding the tagged operation alongside the params, which
pass through verbatim. -/
def requestToJson (r : SupplierRequest) : Json :=
  Json.obj [("operation", operationToJson r.operation), ("params", r.params)]

/-- Modelled from the spec: parsing a `SupplierRequest` back from the
documented wire shape (both fields must be present; the operation must be
a valid tag). -/
def requestFromJson (j : Json) : Option SupplierRequest :=
  match j with
  | Json.obj fields =>
    match lookupField fields "operation", lookupField fields "params" with
    | some opJson, some params =>
      (operationFromJson opJson).map fun op => { operation := op, params := params }
    | _, _ => none
  | _ => none

/-- C8.  Round-trip: serializing any `SupplierRequest` to the documented
wire shape and parsing it back yields the original request, with operation
and params preserved exactly. -/
theorem request_roundtrip (r : SupplierRequest) :
    requestFromJson (requestToJson r) = some r := by
  cases r with
  | mk operation params =>
    cases operation <;> rfl

end SupplierKit
